import Mathlib

/-!
# Verification of the editable real-time synchronization core

This development embeds, in Lean 4, the data model and operations of the
repository's synchronization subsystem (document replica store, awareness
registry, update codec, persistence adapter, debounce scheduler) and of the
`withEditable` editor wrapper, and proves the specified properties about them.

The synchronization core components are modelled from the specification text
(the package ships only its manifest in the source tree); the editor wrapper
is embedded directly from its source.
-/

namespace Sync

/-- Modelled from the spec: the Document Replica Store's CRDT state.  The spec
treats the CRDT algebra as an external collaborator exposing opaque updates
tagged with state-vector deltas; the replica implementation itself is not in
the source tree.  Following the spec's data model, an operation is identified
by its origin client id and per-origin sequence number, and the replica's
document content is the set of operations it has incorporated. -/
structure Replica where
  content : Finset (Nat × Nat)
deriving DecidableEq

/-- Modelled from the spec: an Update is an immutable payload carrying one or
more CRDT operations ("tagged with the state vector delta it advances"). -/
structure Update where
  ops : Finset (Nat × Nat)
deriving DecidableEq

/-- Modelled from the spec: the replica's state vector, "a mapping from
client/replica id to highest sequence number observed" (0 when none). -/
def stateVector (r : Replica) (client : Nat) : Nat :=
  (r.content.filter (fun p => p.1 = client)).sup (fun p => p.2)

/-- Modelled from the spec: `merge(update) -> appliedDelta`.  Merging
incorporates the update's operations and "returns the portion that changed
local state, possibly empty if the update was already known". -/
def merge (r : Replica) (u : Update) : Replica × Update :=
  (⟨r.content ∪ u.ops⟩, ⟨u.ops \ r.content⟩)

/-- Modelled from the spec: an update is applicable to a base state when the
causal predecessor of each of its operations is already present in the base
state or carried by the update itself ("a later update may depend on structure
introduced by an earlier one"). -/
def applicable (r : Replica) (u : Update) : Prop :=
  ∀ p ∈ u.ops, 2 ≤ p.2 → (p.1, p.2 - 1) ∈ r.content ∪ u.ops

instance (r : Replica) (u : Update) : Decidable (applicable r u) := by
  unfold applicable; infer_instance

/-- Modelled from the spec: the Awareness Registry, a "per-room mapping of
client-id to ephemeral presence state" together with its monotonically
increasing clock.  The presence state is opaque; it is modelled as a number.
The registry maps a client id to its stored (clock, state) pair, absent for
unknown clients. -/
def AwarenessReg := Nat → Option (Nat × Nat)

/-- Modelled from the spec: `set(clientId, clock, state)` is "applied only if
clock is strictly greater than the stored clock for clientId; otherwise
ignored (no error)".  An unknown client has no stored clock, so its first
entry is always applied.  The operation is total: a stale call returns the
unchanged registry rather than an error. -/
def awarenessSet (reg : AwarenessReg) (clientId clock state : Nat) :
    AwarenessReg :=
  match reg clientId with
  | some (storedClock, _) =>
    if storedClock < clock then
      fun x => if x = clientId then some (clock, state) else reg x
    else reg
  | none => fun x => if x = clientId then some (clock, state) else reg x

/-- Modelled from the spec: message kinds carried by protocol frames. -/
inductive MessageKind
  | SYNC_STEP1 | SYNC_STEP2 | UPDATE | AWARENESS | AUTH_ERROR | UNKNOWN
deriving DecidableEq

/-- Modelled from the spec: the error taxonomy entries exercised by the codec
and the replica store. -/
inductive SyncError
  | MALFORMED_MESSAGE | CORRUPT_UPDATE
deriving DecidableEq

/-- Modelled from the spec: decoding of a binary update payload into CRDT
operations.  The payload is a flat list of (client, seq) pairs; a payload is
structurally valid exactly when it decodes: it must pair up completely and
every sequence number must be positive.  A truncated (odd-length) or
out-of-range payload is structurally invalid. -/
def decodeUpdateBytes : List Nat → Option (Finset (Nat × Nat))
  | [] => some ∅
  | [_] => none
  | c :: s :: rest =>
    if s = 0 then none
    else (decodeUpdateBytes rest).map (insert (c, s))

/-- Modelled from the spec: merging a raw update payload into the replica.
"merge never rejects a structurally valid update; unknown/malformed updates
surface a CORRUPT_UPDATE error and are dropped without mutating state."  The
result pairs the (possibly unchanged) replica with either the applied delta
or the error. -/
def mergeBytes (r : Replica) (bytes : List Nat) :
    Replica × Except SyncError Update :=
  match decodeUpdateBytes bytes with
  | none => (r, .error .CORRUPT_UPDATE)
  | some ops =>
    let (r', delta) := merge r ⟨ops⟩
    (r', .ok delta)

/-- Modelled from the spec: the Update Codec.  `encode(messageKind, payload)`
prefixes the payload with a tag byte; `decode(bytes)` recovers the kind and
payload, and "an unrecognized or truncated frame yields a MALFORMED_MESSAGE
error". -/
def encodeFrame (kind : MessageKind) (payload : List Nat) : List Nat :=
  (match kind with
   | .SYNC_STEP1 => 0 | .SYNC_STEP2 => 1 | .UPDATE => 2
   | .AWARENESS => 3 | .AUTH_ERROR => 4 | .UNKNOWN => 5) :: payload

/-- Modelled from the spec: codec decoding.  An empty (truncated) frame and a
frame whose tag byte is not one of the six message kinds are unrecognized. -/
def decodeFrame (bytes : List Nat) :
    Except SyncError (MessageKind × List Nat) :=
  match bytes with
  | [] => .error .MALFORMED_MESSAGE
  | tag :: payload =>
    match tag with
    | 0 => .ok (.SYNC_STEP1, payload)
    | 1 => .ok (.SYNC_STEP2, payload)
    | 2 => .ok (.UPDATE, payload)
    | 3 => .ok (.AWARENESS, payload)
    | 4 => .ok (.AUTH_ERROR, payload)
    | 5 => .ok (.UNKNOWN, payload)
    | _ => .error .MALFORMED_MESSAGE

/-- Modelled from the spec: connection status; a protocol error closes the
connection with a protocol-error status. -/
inductive ConnStatus
  | opened | closedProtocolError
deriving DecidableEq

/-- Modelled from the spec: per-room state touched by frame handling — the
document replica and the awareness registry. -/
structure Room where
  replica : Replica
  awareness : AwarenessReg

/-- Modelled from the spec: steady-state frame handling by the Connection
State Machine.  A frame that fails to decode closes the connection with a
protocol-error status and mutates no room state; a decoded `UPDATE` frame is
merged into the replica; a decoded `AWARENESS` frame (a single clientId,
clock, state triple here) goes through the awareness clock check. -/
def handleFrame (room : Room) (conn : ConnStatus) (bytes : List Nat) :
    Room × ConnStatus :=
  match decodeFrame bytes with
  | .error _ => (room, .closedProtocolError)
  | .ok (kind, payload) =>
    match kind with
    | .UPDATE => ({ room with replica := (mergeBytes room.replica payload).1 }, conn)
    | .AWARENESS =>
      match payload with
      | clientId :: clock :: state :: _ =>
        ({ room with awareness := awarenessSet room.awareness clientId clock state }, conn)
      | _ => (room, conn)
    | _ => (room, conn)

/-- Modelled from the spec: the state a room's persistence path sees — the
in-memory document replica and the durably stored snapshot, if any.  The
Persistence Adapter's `store` writes the full encoded document; the encoding
is modelled as the content itself (it is opaque at this boundary). -/
structure PRoom where
  replica : Replica
  stored : Option (Finset (Nat × Nat))
deriving DecidableEq

/-- Modelled from the spec: the Persistence Adapter's bounded retry loop.  A
failed `store` "is retried with exponential backoff up to a bounded number of
attempts" (backoff timing is outside this model); the first `failuresLeft`
attempts fail transiently, each failure leaving the durable state and the
in-memory document untouched; a successful attempt stores the full encoded
current document.  Returns the room and whether any attempt succeeded. -/
def attemptStore (failuresLeft attemptsLeft : Nat) (room : PRoom) :
    PRoom × Bool :=
  match attemptsLeft with
  | 0 => (room, false)
  | n + 1 =>
    match failuresLeft with
    | 0 => ({ room with stored := some room.replica.content }, true)
    | f + 1 => attemptStore f n room

/-- Modelled from the spec: applying a further client update to a room while
its persistence path is failing — the document stays mutable. -/
def proomMerge (room : PRoom) (u : Update) : PRoom :=
  { room with replica := (merge room.replica u).1 }

/-- Modelled from the spec: the per-room Debounce/Flush Scheduler state — the
short idle timer and the maximum-wait timer, each `some k` when running with
`k` time units left, `none` when not running. -/
structure Sched where
  idle : Option Nat
  maxw : Option Nat
deriving DecidableEq

/-- One time unit elapsing on a (possibly stopped) timer. -/
def decTimer : Option Nat → Option Nat
  | none => none
  | some k => some (k - 1)

/-- Modelled from the spec: one time unit of the two-timer scheduler.  "On
every applied, non-empty update, reset a short idle timer (N units) and
ensure a maximum-wait timer is running (M units)"; a freshly reset idle timer
has its full N units again, while a running maximum-wait timer keeps
counting through updates; every running timer then advances by one unit, and
"whichever timer fires first triggers exactly one persistence write",
stopping both timers.  Returns the new state and whether a write was
triggered during this unit. -/
def schedStep (N M : Nat) (upd : Bool) (s : Sched) : Sched × Bool :=
  let idle := if upd then some N else decTimer s.idle
  let maxw := decTimer (if upd then some (s.maxw.getD M) else s.maxw)
  if idle = some 0 ∨ maxw = some 0 then (⟨none, none⟩, true)
  else (⟨idle, maxw⟩, false)

/-- Running the scheduler over a trace of time units (`true` = a non-empty
update was applied during that unit), returning the write flag per unit. -/
def schedRun (N M : Nat) (s : Sched) : List Bool → List Bool
  | [] => []
  | u :: us =>
    let p := schedStep N M u s
    p.2 :: schedRun N M p.1 us

/-- The scheduler state after a trace. -/
def schedEnd (N M : Nat) (s : Sched) (trace : List Bool) : Sched :=
  trace.foldl (fun s u => (schedStep N M u s).1) s

/-- States reachable by the scheduler: both timers stopped, or both running
with at least one unit left and the maximum-wait timer within its bound. -/
def SchedInv (N M : Nat) (s : Sched) : Prop :=
  s = ⟨none, none⟩ ∨ ∃ a b, s = ⟨some a, some b⟩ ∧ 1 ≤ a ∧ 1 ≤ b ∧ b ≤ M

end Sync

namespace Ed

/-- A point in the document: a path of child indices and a character offset
(`Point` of `@editablejs/models`). -/
structure Point where
  path : List Nat
  offset : Nat
deriving DecidableEq

/-- A selection range with anchor and focus points (`Range` of
`@editablejs/models`). -/
structure Range where
  anchor : Point
  focus : Point
deriving DecidableEq

/-- `Range.isCollapsed`: anchor and focus coincide. -/
def Range.isCollapsed (r : Range) : Bool := r.anchor = r.focus

/-- The editor state the `withEditable` wrapper reads and writes: the
document content (opaque at this boundary) and the current selection. -/
structure EditorState where
  doc : Nat
  selection : Option Range
deriving DecidableEq

/-- The granularity argument of `deleteForward` / `deleteBackward`
(`'character' | 'word' | 'line' | 'block'`). -/
inductive DeleteUnit
  | character | word | line | block
deriving DecidableEq

/-- The external `@editablejs/models` operations the `withEditable` wrapper
calls; that library is an external collaborator, so each operation is an
opaque parameter of the embedding.  Field by field: the first grid-cell entry
found by `Editor.nodes` with the `e.isGridCell` match; `Editor.end`;
`Editor.start`; `List.above`; `Editor.isStart`; `List.unwrapList`;
`Editor.above` with the block match (its path); `Editor.range` from a path to
a point; `findCurrentLineRange`; `Transforms.delete` at a range;
`Editable.findPath(e, e)`; and the editor's original `deleteForward` /
`deleteBackward` captured before the wrapper overrides them. -/
structure ModelEnv where
  gridCellAt : EditorState → Option (List Nat)
  endOf : EditorState → List Nat → Point
  startOf : EditorState → List Nat → Point
  listAbove : EditorState → Option (List Nat)
  isStart : EditorState → Point → List Nat → Bool
  unwrapList : EditorState → EditorState
  aboveBlockPath : EditorState → Option (List Nat)
  rangeOf : EditorState → List Nat → Point → Range
  currentLineRange : EditorState → Range → Range
  deleteAt : EditorState → Range → EditorState
  findPath : EditorState → List Nat
  wrappedDeleteForward : DeleteUnit → EditorState → EditorState
  wrappedDeleteBackward : DeleteUnit → EditorState → EditorState

/-- `Transforms.select` at a point: the selection collapses onto it. -/
def selectE (ed : EditorState) (p : Point) : EditorState :=
  { ed with selection := some ⟨p, p⟩ }

/-- Embedded from the source: `e.deleteForward`.  With a collapsed selection
whose first enclosing grid cell exists, an anchor at the cell's end point
returns early; every other path falls through to the wrapped
`deleteForward(unit)`. -/
def deleteForwardE (env : ModelEnv) (ed : EditorState) (unit : DeleteUnit) :
    EditorState :=
  match ed.selection with
  | some selection =>
    if selection.isCollapsed then
      match env.gridCellAt ed with
      | some cellPath =>
        if selection.anchor = env.endOf ed cellPath then ed
        else env.wrappedDeleteForward unit ed
      | none => env.wrappedDeleteForward unit ed
    else env.wrappedDeleteForward unit ed
  | none => env.wrappedDeleteForward unit ed

/-- Embedded from the source: the tail of `e.deleteBackward` after the
grid-cell and list checks — `if (unit !== 'line') return deleteBackward(unit)`
followed by the line-deletion branch. -/
def deleteBackwardLine (env : ModelEnv) (ed : EditorState) (unit : DeleteUnit) :
    EditorState :=
  if unit ≠ DeleteUnit.line then env.wrappedDeleteBackward unit ed
  else
    match ed.selection with
    | some selection =>
      if selection.isCollapsed then
        match env.aboveBlockPath ed with
        | some parentBlockPath =>
          let parentElementRange := env.rangeOf ed parentBlockPath selection.anchor
          let currentLineRange := env.currentLineRange ed parentElementRange
          if ¬currentLineRange.isCollapsed then env.deleteAt ed currentLineRange
          else ed
        | none => ed
      else ed
    | none => ed

/-- Embedded from the source: the list check inside `e.deleteBackward`'s
collapsed-selection branch — `List.above` and `Editor.isStart` trigger
`List.unwrapList` and return. -/
def deleteBackwardList (env : ModelEnv) (ed : EditorState) (unit : DeleteUnit)
    (selection : Range) : EditorState :=
  match env.listAbove ed with
  | some listPath =>
    if env.isStart ed selection.focus listPath then env.unwrapList ed
    else deleteBackwardLine env ed unit
  | none => deleteBackwardLine env ed unit

/-- Embedded from the source: `e.deleteBackward`.  With a collapsed selection
whose first enclosing grid cell exists, an anchor at the cell's start point
returns early; otherwise the list check and then the unit dispatch run. -/
def deleteBackwardE (env : ModelEnv) (ed : EditorState) (unit : DeleteUnit) :
    EditorState :=
  match ed.selection with
  | some selection =>
    if selection.isCollapsed then
      match env.gridCellAt ed with
      | some cellPath =>
        if selection.anchor = env.startOf ed cellPath then ed
        else deleteBackwardList env ed unit selection
      | none => deleteBackwardList env ed unit selection
    else deleteBackwardLine env ed unit
  | none => deleteBackwardLine env ed unit

/-- Modelled from the spec: the `EventEmitter` helper (`./event`) is not in
the source tree; modelled with standard emitter semantics.  The registry maps
an event type to its registered handlers (opaque identities) in call order. -/
structure Emitter where
  handlers : String → List Nat

/-- Modelled from the spec: `EventEmitter.on` registers a handler, at the
front when `prepend` is set and at the back otherwise. -/
def emitterOn (em : Emitter) (type : String) (handler : Nat) (prepend : Bool) :
    Emitter :=
  ⟨fun t =>
    if t = type then
      if prepend then handler :: em.handlers t else em.handlers t ++ [handler]
    else em.handlers t⟩

/-- Modelled from the spec: `EventEmitter.emit` invokes every handler
registered for the type, in order, and does not unregister any of them.
Returns the invoked handlers and the (unchanged) registry. -/
def emitterEmit (em : Emitter) (type : String) : List Nat × Emitter :=
  (em.handlers type, em)

/-- Embedded from the source: `e.on` delegates to `EventEmitter.on`. -/
def e_on (em : Emitter) (type : String) (handler : Nat) (prepend : Bool) :
    Emitter :=
  emitterOn em type handler prepend

/-- Embedded from the source: `e.once` also delegates to `EventEmitter.on` —
its body is identical to `e.on`'s, with no self-removing wrapper. -/
def e_once (em : Emitter) (type : String) (handler : Nat) (prepend : Bool) :
    Emitter :=
  emitterOn em type handler prepend

/-- Embedded from the source: `e.focus(start)`.  `start` is an optional
boolean (`undefined` modelled as `none`): with no selection, `start ? a : b`
tests truthiness and picks the editor start or end; with a selection, both
the `start === true` and the `start === false` branches select the editor
start.  The trailing `textarea.focus` call touches only the DOM, outside this
state model. -/
def focusE (env : ModelEnv) (ed : EditorState) (start : Option Bool) :
    EditorState :=
  match ed.selection with
  | none =>
    let path := env.findPath ed
    let point := if start = some true then env.startOf ed path
      else env.endOf ed path
    selectE ed point
  | some _ =>
    if start = some true then selectE ed (env.startOf ed (env.findPath ed))
    else if start = some false then selectE ed (env.startOf ed (env.findPath ed))
    else ed

/-- A concrete external-operations environment for evaluating the wrapper at
specific inputs; the wrapped deletions mutate the document so an unchanged
result witnesses that they were not invoked. -/
def env0 : ModelEnv where
  gridCellAt := fun _ => some [0]
  endOf := fun _ _ => ⟨[0, 0], 0⟩
  startOf := fun _ _ => ⟨[0, 0], 0⟩
  listAbove := fun _ => none
  isStart := fun _ _ _ => false
  unwrapList := fun e => e
  aboveBlockPath := fun _ => none
  rangeOf := fun _ _ p => ⟨p, p⟩
  currentLineRange := fun _ r => r
  deleteAt := fun e _ => e
  findPath := fun _ => []
  wrappedDeleteForward := fun _ e => { e with doc := e.doc + 1 }
  wrappedDeleteBackward := fun _ e => { e with doc := e.doc + 1 }

/-- A concrete editor state with a collapsed selection at `⟨[0, 0], 0⟩`. -/
def ed0 : EditorState := ⟨7, some ⟨⟨[0, 0], 0⟩, ⟨[0, 0], 0⟩⟩⟩

/-- A concrete editor state with no selection. -/
def ed1 : EditorState := ⟨7, none⟩

end Ed

namespace Sync

/-- A scheduler run is as long as its trace. -/
lemma schedRun_length (N M : Nat) (s : Sched) (tr : List Bool) :
    (schedRun N M s tr).length = tr.length := by
  induction tr generalizing s with
  | nil => rfl
  | cons u us ih => simp [schedRun, ih]

/-- A scheduler run splits at a trace concatenation. -/
lemma schedRun_append (N M : Nat) (s : Sched) (xs ys : List Bool) :
    schedRun N M s (xs ++ ys) =
      schedRun N M s xs ++ schedRun N M (schedEnd N M s xs) ys := by
  induction xs generalizing s with
  | nil => rfl
  | cons u us ih => simp [schedRun, schedEnd, List.foldl_cons, ih]

/-- Indexing past a prefix of an appended list. -/
lemma get?_append_offset (l1 l2 : List Bool) (r : Nat) :
    (l1 ++ l2).get? (l1.length + r) = l2.get? r := by
  induction l1 with
  | nil => simp
  | cons a l ih => simpa [Nat.succ_add] using ih

/-- Evaluation of a scheduler step on an update unit. -/
lemma schedStep_true (N M : Nat) (i b : Option Nat) :
    schedStep N M true ⟨i, b⟩ =
      if N = 0 ∨ b.getD M - 1 = 0 then (⟨none, none⟩, true)
      else (⟨some N, some (b.getD M - 1)⟩, false) := by
  simp [schedStep, decTimer]

/-- Evaluation of a scheduler step on a quiet unit with both timers running. -/
lemma schedStep_false_run (N M a b : Nat) :
    schedStep N M false ⟨some a, some b⟩ =
      if a - 1 = 0 ∨ b - 1 = 0 then (⟨none, none⟩, true)
      else (⟨some (a - 1), some (b - 1)⟩, false) := by
  simp [schedStep, decTimer]

/-- Evaluation of a scheduler step on a quiet unit with both timers stopped. -/
lemma schedStep_false_none (N M : Nat) :
    schedStep N M false ⟨none, none⟩ = (⟨none, none⟩, false) := by
  simp [schedStep, decTimer]

/-- One scheduler step preserves the reachable-state invariant. -/
lemma schedStep_inv (N M : Nat) (hN : 1 ≤ N) (hM : 1 ≤ M) (u : Bool)
    (s : Sched) (h : SchedInv N M s) : SchedInv N M (schedStep N M u s).1 := by
  rcases h with rfl | ⟨a, b, rfl, ha, hb, hbM⟩
  · cases u
    · rw [schedStep_false_none]; exact Or.inl rfl
    · rw [schedStep_true]
      by_cases hc : N = 0 ∨ (none : Option Nat).getD M - 1 = 0
      · rw [if_pos hc]; exact Or.inl rfl
      · rw [if_neg hc]
        simp only [Option.getD_none] at hc ⊢
        exact Or.inr ⟨N, M - 1, rfl, hN, by omega, by omega⟩
  · cases u
    · rw [schedStep_false_run]
      by_cases hc : a - 1 = 0 ∨ b - 1 = 0
      · rw [if_pos hc]; exact Or.inl rfl
      · rw [if_neg hc]
        exact Or.inr ⟨a - 1, b - 1, rfl, by omega, by omega, by omega⟩
    · rw [schedStep_true]
      by_cases hc : N = 0 ∨ (some b).getD M - 1 = 0
      · rw [if_pos hc]; exact Or.inl rfl
      · rw [if_neg hc]
        simp only [Option.getD_some] at hc ⊢
        exact Or.inr ⟨N, b - 1, rfl, hN, by omega, by omega⟩

/-- Every state reached from the stopped state satisfies the invariant. -/
lemma schedEnd_inv (N M : Nat) (hN : 1 ≤ N) (hM : 1 ≤ M) (s : Sched)
    (h : SchedInv N M s) (tr : List Bool) : SchedInv N M (schedEnd N M s tr) := by
  induction tr generalizing s with
  | nil => exact h
  | cons u us ih =>
    exact ih ((schedStep N M u s).1) (schedStep_inv N M hN hM u s h)

/-- A run from the stopped state over continuous updates coincides with a run
whose maximum-wait timer starts with its full budget: the first update step
treats them identically. -/
lemma schedRun_clean_cont (N M T : Nat) :
    schedRun N M ⟨none, none⟩ (List.replicate T true) =
      schedRun N M ⟨none, some M⟩ (List.replicate T true) := by
  cases T with
  | zero => rfl
  | succ T =>
    have h : schedStep N M true ⟨none, none⟩ = schedStep N M true ⟨none, some M⟩ := by
      rw [schedStep_true, schedStep_true]
      simp
    simp [List.replicate_succ, schedRun, h]

/-- Under a continuous stream of updates from a state whose maximum-wait timer
has `b` units left, a write is triggered exactly at units `b - 1`, `b - 1 + M`,
`b - 1 + 2M`, ...: the idle timer is reset every unit and never fires, and the
maximum-wait timer fires and restarts every `M` units. -/
lemma cont_writes (N M : Nat) (hN : 1 ≤ N) (hM : 1 ≤ M) :
    ∀ (T : Nat) (i : Option Nat) (b : Nat), 1 ≤ b → ∀ p : Nat,
      ((schedRun N M ⟨i, some b⟩ (List.replicate T true)).get? p = some true ↔
        p < T ∧ ∃ j, p + 1 = b + j * M) := by
  intro T
  induction T with
  | zero =>
    intro i b hb p
    simp [schedRun]
  | succ T ih =>
    intro i b hb p
    rw [List.replicate_succ]
    by_cases hb1 : b = 1
    · subst hb1
      have hstep : schedStep N M true ⟨i, some 1⟩ = (⟨none, none⟩, true) := by
        rw [schedStep_true, if_pos (by simp)]
      have hrun : schedRun N M ⟨i, some 1⟩ (true :: List.replicate T true) =
          true :: schedRun N M ⟨none, none⟩ (List.replicate T true) := by
        simp [schedRun, hstep]
      rw [hrun, schedRun_clean_cont]
      cases p with
      | zero =>
        exact ⟨fun _ => ⟨Nat.succ_pos T, 0, by simp⟩, fun _ => rfl⟩
      | succ q =>
        have hget : (true :: schedRun N M ⟨none, some M⟩
            (List.replicate T true)).get? (q + 1) =
            (schedRun N M ⟨none, some M⟩ (List.replicate T true)).get? q := rfl
        rw [hget, ih none M hM q]
        constructor
        · rintro ⟨hq, j, hj⟩
          refine ⟨by omega, j + 1, ?_⟩
          rw [Nat.succ_mul]
          have key : ∀ t : Nat, q + 1 = M + t → q + 1 + 1 = 1 + (t + M) :=
            fun t ht => by omega
          exact key (j * M) hj
        · rintro ⟨hq, j, hj⟩
          cases j with
          | zero => simp at hj
          | succ j' =>
            refine ⟨by omega, j', ?_⟩
            rw [Nat.succ_mul] at hj
            have key : ∀ t : Nat, q + 1 + 1 = 1 + (t + M) → q + 1 = M + t :=
              fun t ht => by omega
            exact key (j' * M) hj
    · have hcond : ¬(N = 0 ∨ (some b).getD M - 1 = 0) := by
        simp only [Option.getD_some]
        omega
      have hstep : schedStep N M true ⟨i, some b⟩ =
          (⟨some N, some (b - 1)⟩, false) := by
        rw [schedStep_true, if_neg hcond]
        simp only [Option.getD_some]
      have hrun : schedRun N M ⟨i, some b⟩ (true :: List.replicate T true) =
          false :: schedRun N M ⟨some N, some (b - 1)⟩ (List.replicate T true) := by
        simp [schedRun, hstep]
      rw [hrun]
      cases p with
      | zero =>
        constructor
        · intro h
          exact absurd (Option.some.inj h) (by simp)
        · rintro ⟨hq, j, hj⟩
          exfalso
          have key : ∀ t : Nat, (1 : Nat) = b + t → False := fun t ht => by omega
          exact key (j * M) hj
      | succ q =>
        have hget : (false :: schedRun N M ⟨some N, some (b - 1)⟩
            (List.replicate T true)).get? (q + 1) =
            (schedRun N M ⟨some N, some (b - 1)⟩ (List.replicate T true)).get? q := rfl
        rw [hget, ih (some N) (b - 1) (by omega) q]
        constructor
        · rintro ⟨hq, j, hj⟩
          refine ⟨by omega, j, ?_⟩
          have key : ∀ t : Nat, q + 1 = b - 1 + t → q + 1 + 1 = b + t :=
            fun t ht => by omega
          exact key (j * M) hj
        · rintro ⟨hq, j, hj⟩
          refine ⟨by omega, j, ?_⟩
          have key : ∀ t : Nat, q + 1 + 1 = b + t → q + 1 = b - 1 + t :=
            fun t ht => by omega
          exact key (j * M) hj

/-- Once a room goes quiet with both timers running, a write is triggered
within the idle timer's remaining budget. -/
lemma quiet_write (N M : Nat) :
    ∀ (Q a b : Nat), 1 ≤ a → 1 ≤ b → a ≤ Q →
      ∃ p, p < a ∧
        (schedRun N M ⟨some a, some b⟩ (List.replicate Q false)).get? p =
          some true := by
  intro Q
  induction Q with
  | zero =>
    intro a b ha hb h
    exact absurd h (by omega)
  | succ Q ih =>
    intro a b ha hb h
    rw [List.replicate_succ]
    by_cases hfire : a - 1 = 0 ∨ b - 1 = 0
    · have hstep : schedStep N M false ⟨some a, some b⟩ = (⟨none, none⟩, true) := by
        rw [schedStep_false_run, if_pos hfire]
      have hrun : schedRun N M ⟨some a, some b⟩ (false :: List.replicate Q false) =
          true :: schedRun N M ⟨none, none⟩ (List.replicate Q false) := by
        simp [schedRun, hstep]
      exact ⟨0, ha, by rw [hrun]; rfl⟩
    · have hstep : schedStep N M false ⟨some a, some b⟩ =
          (⟨some (a - 1), some (b - 1)⟩, false) := by
        rw [schedStep_false_run, if_neg hfire]
      have hrun : schedRun N M ⟨some a, some b⟩ (false :: List.replicate Q false) =
          false :: schedRun N M ⟨some (a - 1), some (b - 1)⟩
            (List.replicate Q false) := by
        simp [schedRun, hstep]
      push_neg at hfire
      obtain ⟨p, hp, hget⟩ := ih (a - 1) (b - 1)
        (by omega) (by omega) (by omega)
      exact ⟨p + 1, by omega, by rw [hrun]; exact hget⟩

/-- From any reachable state, an update unit followed by a quiet period
triggers a write within the maximum-wait budget of that update. -/
lemma tail_write (N M : Nat) (hN : 1 ≤ N) (hNM : N < M) (s : Sched)
    (hinv : SchedInv N M s) (Q : Nat) (hQ : M ≤ Q) :
    ∃ r, r ≤ M ∧
      (schedRun N M s (true :: List.replicate Q false)).get? r = some true := by
  rcases hinv with rfl | ⟨a, b, rfl, ha, hb, hbM⟩
  · have hcond : ¬(N = 0 ∨ (none : Option Nat).getD M - 1 = 0) := by
      simp only [Option.getD_none]
      omega
    have hstep : schedStep N M true ⟨none, none⟩ =
        (⟨some N, some (M - 1)⟩, false) := by
      rw [schedStep_true, if_neg hcond]
      simp only [Option.getD_none]
    have hrun : schedRun N M ⟨none, none⟩ (true :: List.replicate Q false) =
        false :: schedRun N M ⟨some N, some (M - 1)⟩ (List.replicate Q false) := by
      simp [schedRun, hstep]
    obtain ⟨p, hp, hget⟩ := quiet_write N M Q N (M - 1) hN (by omega) (by omega)
    exact ⟨p + 1, by omega, by rw [hrun]; exact hget⟩
  · by_cases hb1 : b = 1
    · subst hb1
      have hstep : schedStep N M true ⟨some a, some 1⟩ = (⟨none, none⟩, true) := by
        rw [schedStep_true, if_pos (by simp)]
      have hrun : schedRun N M ⟨some a, some 1⟩ (true :: List.replicate Q false) =
          true :: schedRun N M ⟨none, none⟩ (List.replicate Q false) := by
        simp [schedRun, hstep]
      exact ⟨0, by omega, by rw [hrun]; rfl⟩
    · have hcond : ¬(N = 0 ∨ (some b).getD M - 1 = 0) := by
        simp only [Option.getD_some]
        omega
      have hstep : schedStep N M true ⟨some a, some b⟩ =
          (⟨some N, some (b - 1)⟩, false) := by
        rw [schedStep_true, if_neg hcond]
        simp only [Option.getD_some]
      have hrun : schedRun N M ⟨some a, some b⟩ (true :: List.replicate Q false) =
          false :: schedRun N M ⟨some N, some (b - 1)⟩ (List.replicate Q false) := by
        simp [schedRun, hstep]
      obtain ⟨p, hp, hget⟩ := quiet_write N M Q N (b - 1) hN (by omega) (by omega)
      exact ⟨p + 1, by omega, by rw [hrun]; exact hget⟩

/-- Every attempt outcome leaves the in-memory replica untouched. -/
lemma attemptStore_replica (f k : Nat) (room : PRoom) :
    (attemptStore f k room).1.replica = room.replica := by
  induction k generalizing f room with
  | zero => cases f <;> rfl
  | succ n ih =>
    cases f with
    | zero => rfl
    | succ g => exact ih g room

/-- If the store succeeds within the attempt bound, the stored bytes are the
full encoding of the document at write time. -/
lemma attemptStore_success (f k : Nat) (room : PRoom) (h : f < k) :
    (attemptStore f k room).1.stored = some room.replica.content ∧
    (attemptStore f k room).2 = true := by
  induction f generalizing k room with
  | zero =>
    cases k with
    | zero => omega
    | succ n => exact ⟨rfl, rfl⟩
  | succ g ih =>
    cases k with
    | zero => omega
    | succ n => exact ih n room (by omega)

/-- If every attempt fails, the room is returned exactly as it was. -/
lemma attemptStore_allFail (f k : Nat) (room : PRoom) (h : k ≤ f) :
    attemptStore f k room = (room, false) := by
  induction k generalizing f room with
  | zero => cases f <;> rfl
  | succ n ih =>
    cases f with
    | zero => omega
    | succ g => exact ih g room (by omega)

/-- C1: merge on the Document Replica Store is commutative: for any base state
and any two updates applicable to it, merging A then B and merging B then A
yield the same document content and the same state vector. -/
theorem merge_comm (r : Replica) (A B : Update)
    (hA : applicable r A) (hB : applicable r B) :
    (merge (merge r A).1 B).1 = (merge (merge r B).1 A).1 ∧
    ∀ c, stateVector (merge (merge r A).1 B).1 c =
      stateVector (merge (merge r B).1 A).1 c := by
  have hcontent : (merge (merge r A).1 B).1 = (merge (merge r B).1 A).1 := by
    simp only [merge]
    congr 1
    rw [Finset.union_assoc, Finset.union_assoc, Finset.union_comm A.ops B.ops]
  exact ⟨hcontent, fun c => by rw [hcontent]⟩

/-- Witness for C1 at a concrete base state and concrete updates. -/
theorem merge_comm_witness :
    applicable ⟨{(1, 1)}⟩ ⟨{(1, 2)}⟩ ∧ applicable ⟨{(1, 1)}⟩ ⟨{(2, 1)}⟩ ∧
    ((merge (merge ⟨{(1, 1)}⟩ ⟨{(1, 2)}⟩).1 ⟨{(2, 1)}⟩).1 =
      (merge (merge ⟨{(1, 1)}⟩ ⟨{(2, 1)}⟩).1 ⟨{(1, 2)}⟩).1 ∧
    ∀ c, stateVector (merge (merge ⟨{(1, 1)}⟩ ⟨{(1, 2)}⟩).1 ⟨{(2, 1)}⟩).1 c =
      stateVector (merge (merge ⟨{(1, 1)}⟩ ⟨{(2, 1)}⟩).1 ⟨{(1, 2)}⟩).1 c) :=
  ⟨by decide, by decide,
    merge_comm ⟨{(1, 1)}⟩ ⟨{(1, 2)}⟩ ⟨{(2, 1)}⟩ (by decide) (by decide)⟩

/-- C2: merge is idempotent: merging an already-applied update a second time
leaves the document content and state vector unchanged, and the second merge
is a no-op returning an empty applied delta, not an error. -/
theorem merge_idem (r : Replica) (A : Update) (hA : applicable r A) :
    (merge (merge r A).1 A).1 = (merge r A).1 ∧
    (∀ c, stateVector (merge (merge r A).1 A).1 c =
      stateVector (merge r A).1 c) ∧
    (merge (merge r A).1 A).2 = ⟨∅⟩ := by
  have hcontent : (merge (merge r A).1 A).1 = (merge r A).1 := by
    simp only [merge]
    congr 1
    rw [Finset.union_assoc, Finset.union_self]
  refine ⟨hcontent, fun c => by rw [hcontent], ?_⟩
  simp only [merge]
  congr 1
  apply Finset.sdiff_eq_empty_iff_subset.mpr
  exact Finset.subset_union_right

/-- Witness for C2 at a concrete base state and update. -/
theorem merge_idem_witness :
    applicable ⟨{(1, 1)}⟩ ⟨{(1, 2), (2, 1)}⟩ ∧
    ((merge (merge ⟨{(1, 1)}⟩ ⟨{(1, 2), (2, 1)}⟩).1 ⟨{(1, 2), (2, 1)}⟩).1 =
      (merge ⟨{(1, 1)}⟩ ⟨{(1, 2), (2, 1)}⟩).1 ∧
    (∀ c, stateVector
        (merge (merge ⟨{(1, 1)}⟩ ⟨{(1, 2), (2, 1)}⟩).1 ⟨{(1, 2), (2, 1)}⟩).1 c =
      stateVector (merge ⟨{(1, 1)}⟩ ⟨{(1, 2), (2, 1)}⟩).1 c) ∧
    (merge (merge ⟨{(1, 1)}⟩ ⟨{(1, 2), (2, 1)}⟩).1 ⟨{(1, 2), (2, 1)}⟩).2 = ⟨∅⟩) :=
  ⟨by decide, merge_idem ⟨{(1, 1)}⟩ ⟨{(1, 2), (2, 1)}⟩ (by decide)⟩

/-- C3: Awareness Registry `set` is applied only for strictly increasing
clocks: after `set(c, c1, X)` (with `c1` above any stored clock for `c`), a
second call `set(c, c2, Y)` with `c2 ≤ c1` is ignored — it returns the
registry unchanged (no error) and the stored state for `c` remains `X` with
clock `c1`. -/
theorem awareness_set_monotonic (reg : AwarenessReg) (c c1 c2 X Y : Nat)
    (hfresh : ∀ e, reg c = some e → e.1 < c1) (hle : c2 ≤ c1) :
    awarenessSet (awarenessSet reg c c1 X) c c2 Y = awarenessSet reg c c1 X ∧
    awarenessSet (awarenessSet reg c c1 X) c c2 Y c = some (c1, X) := by
  have h1 : awarenessSet reg c c1 X c = some (c1, X) := by
    unfold awarenessSet
    cases hc : reg c with
    | none => simp
    | some e =>
      obtain ⟨k, s⟩ := e
      have hk : k < c1 := hfresh (k, s) hc
      simp [hk]
  have h2 : ∀ r : AwarenessReg, r c = some (c1, X) →
      awarenessSet r c c2 Y = r := by
    intro r hr
    unfold awarenessSet
    rw [hr]
    simp [Nat.not_lt.mpr hle]
  have h3 := h2 (awarenessSet reg c c1 X) h1
  exact ⟨h3, by rw [h3]; exact h1⟩

/-- Witness for C3: on an empty registry, `set(1, 5, X)` then `set(1, 3, Y)`
leaves state `X` at clock 5. -/
theorem awareness_set_monotonic_witness :
    (∀ e, (fun _ => none : AwarenessReg) 1 = some e → e.1 < 5) ∧ 3 ≤ 5 ∧
    (awarenessSet (awarenessSet (fun _ => none) 1 5 10) 1 3 20 =
      awarenessSet (fun _ => none) 1 5 10 ∧
    awarenessSet (awarenessSet (fun _ => none) 1 5 10) 1 3 20 1 =
      some (5, 10)) :=
  ⟨fun e h => by simp at h, by decide,
    awareness_set_monotonic (fun _ => none) 1 5 3 10 20
      (fun e h => by simp at h) (by decide)⟩

/-- C4: merging a raw update payload never rejects a structurally valid
update (it yields an applied delta), while a structurally invalid payload
yields a `CORRUPT_UPDATE` error, leaves the replica's content and state
vector exactly unchanged, and — through the full frame-handling path of an
`UPDATE` frame carrying it — is dropped with the room exactly unchanged and
the connection status unchanged, so the connection stays open. -/
theorem merge_corrupt_update (r : Replica) (bytes : List Nat) :
    ((∃ ops, decodeUpdateBytes bytes = some ops) →
      ∃ delta, (mergeBytes r bytes).2 = Except.ok delta) ∧
    (decodeUpdateBytes bytes = none →
      (mergeBytes r bytes).2 = Except.error SyncError.CORRUPT_UPDATE ∧
      (mergeBytes r bytes).1 = r ∧
      (∀ c, stateVector (mergeBytes r bytes).1 c = stateVector r c) ∧
      ∀ (aw : AwarenessReg) (conn : ConnStatus),
        handleFrame ⟨r, aw⟩ conn (encodeFrame MessageKind.UPDATE bytes) =
          (⟨r, aw⟩, conn)) := by
  constructor
  · rintro ⟨ops, hops⟩
    refine ⟨(merge r ⟨ops⟩).2, ?_⟩
    simp [mergeBytes, hops]
  · intro hnone
    refine ⟨by simp [mergeBytes, hnone], by simp [mergeBytes, hnone],
      fun c => by simp [mergeBytes, hnone], fun aw conn => ?_⟩
    simp [handleFrame, encodeFrame, decodeFrame, mergeBytes, hnone]

/-- Witness for C4: the valid payload `[2, 1]` is merged; the truncated
payload `[5]` surfaces `CORRUPT_UPDATE` without mutating the replica, and an
`UPDATE` frame carrying it leaves a concrete room and an open connection
unchanged. -/
theorem merge_corrupt_update_witness :
    (∃ delta, (mergeBytes ⟨{(1, 1)}⟩ [2, 1]).2 = Except.ok delta) ∧
    ((mergeBytes ⟨{(1, 1)}⟩ [5]).2 = Except.error SyncError.CORRUPT_UPDATE ∧
      (mergeBytes ⟨{(1, 1)}⟩ [5]).1 = ⟨{(1, 1)}⟩ ∧
      (∀ c, stateVector (mergeBytes ⟨{(1, 1)}⟩ [5]).1 c =
        stateVector ⟨{(1, 1)}⟩ c) ∧
      handleFrame ⟨⟨{(1, 1)}⟩, fun _ => none⟩ ConnStatus.opened
          (encodeFrame MessageKind.UPDATE [5]) =
        (⟨⟨{(1, 1)}⟩, fun _ => none⟩, ConnStatus.opened)) :=
  ⟨(merge_corrupt_update ⟨{(1, 1)}⟩ [2, 1]).1 ⟨{(2, 1)}, by decide⟩,
    ((merge_corrupt_update ⟨{(1, 1)}⟩ [5]).2 (by decide)).1,
    ((merge_corrupt_update ⟨{(1, 1)}⟩ [5]).2 (by decide)).2.1,
    ((merge_corrupt_update ⟨{(1, 1)}⟩ [5]).2 (by decide)).2.2.1,
    ((merge_corrupt_update ⟨{(1, 1)}⟩ [5]).2 (by decide)).2.2.2
      (fun _ => none) ConnStatus.opened⟩

/-- C5: a byte frame the Update Codec cannot decode yields a
`MALFORMED_MESSAGE` error, frame handling closes the connection with a
protocol-error status, and the room state (document replica and awareness
registry) is returned exactly unchanged. -/
theorem malformed_frame_handling (room : Room) (conn : ConnStatus)
    (bytes : List Nat)
    (h : ∀ res, decodeFrame bytes ≠ Except.ok res) :
    decodeFrame bytes = Except.error SyncError.MALFORMED_MESSAGE ∧
    handleFrame room conn bytes = (room, ConnStatus.closedProtocolError) := by
  have hdec : decodeFrame bytes = Except.error SyncError.MALFORMED_MESSAGE := by
    match bytes with
    | [] => rfl
    | 0 :: p => exact absurd rfl (h (.SYNC_STEP1, p))
    | 1 :: p => exact absurd rfl (h (.SYNC_STEP2, p))
    | 2 :: p => exact absurd rfl (h (.UPDATE, p))
    | 3 :: p => exact absurd rfl (h (.AWARENESS, p))
    | 4 :: p => exact absurd rfl (h (.AUTH_ERROR, p))
    | 5 :: p => exact absurd rfl (h (.UNKNOWN, p))
    | (n + 6) :: p => rfl
  exact ⟨hdec, by simp [handleFrame, hdec]⟩

/-- Witness for C5: the unrecognized frame `[9, 0]` closes the connection and
leaves a concrete room untouched. -/
theorem malformed_frame_handling_witness :
    (∀ res, decodeFrame [9, 0] ≠ Except.ok res) ∧
    (decodeFrame [9, 0] = Except.error SyncError.MALFORMED_MESSAGE ∧
      handleFrame ⟨⟨{(1, 1)}⟩, fun _ => none⟩ ConnStatus.opened [9, 0] =
        (⟨⟨{(1, 1)}⟩, fun _ => none⟩, ConnStatus.closedProtocolError)) :=
  ⟨fun res hres => by simp [decodeFrame] at hres,
    malformed_frame_handling ⟨⟨{(1, 1)}⟩, fun _ => none⟩ ConnStatus.opened
      [9, 0] (fun res hres => by simp [decodeFrame] at hres)⟩

/-- C6: persistence failures do not lose updates.  Every outcome of the
bounded retry loop leaves the in-memory document intact; a store that fails
`f` times and then succeeds within the attempt bound writes exactly the
document state at write time; and if every attempt fails, the room is
entirely untouched and still mutable, and the next flush (here one that
succeeds) stores the then-current, possibly further advanced, state — the
update merged in the meantime is not lost. -/
theorem persistence_retry (f k : Nat) (room : PRoom) :
    (attemptStore f k room).1.replica = room.replica ∧
    (f < k →
      (attemptStore f k room).1.stored = some room.replica.content ∧
      (attemptStore f k room).2 = true) ∧
    (k ≤ f →
      attemptStore f k room = (room, false) ∧
      ∀ (u : Update) (f2 k2 : Nat), f2 < k2 →
        (attemptStore f2 k2 (proomMerge (attemptStore f k room).1 u)).1.stored =
          some (merge room.replica u).1.content) := by
  refine ⟨attemptStore_replica f k room,
    fun h => attemptStore_success f k room h, fun h => ?_⟩
  have hall := attemptStore_allFail f k room h
  refine ⟨hall, fun u f2 k2 h2 => ?_⟩
  have hs := (attemptStore_success f2 k2
    (proomMerge (attemptStore f k room).1 u) h2).1
  rw [hs, hall]
  rfl

/-- Witness for C6: with a concrete room, a store failing twice within a
three-attempt bound still writes the document state, and a fully failed
store (three failures, two attempts) leaves the room untouched while the
next successful flush persists the advanced state. -/
theorem persistence_retry_witness :
    ((attemptStore 2 3 ⟨⟨{(1, 1)}⟩, none⟩).1.replica = ⟨{(1, 1)}⟩ ∧
      (attemptStore 2 3 ⟨⟨{(1, 1)}⟩, none⟩).1.stored = some {(1, 1)} ∧
      (attemptStore 2 3 ⟨⟨{(1, 1)}⟩, none⟩).2 = true) ∧
    (attemptStore 3 2 ⟨⟨{(1, 1)}⟩, none⟩ = (⟨⟨{(1, 1)}⟩, none⟩, false) ∧
      (attemptStore 0 1 (proomMerge
          (attemptStore 3 2 ⟨⟨{(1, 1)}⟩, none⟩).1 ⟨{(1, 2)}⟩)).1.stored =
        some (merge ⟨{(1, 1)}⟩ ⟨{(1, 2)}⟩).1.content) :=
  ⟨⟨(persistence_retry 2 3 ⟨⟨{(1, 1)}⟩, none⟩).1,
      (persistence_retry 2 3 ⟨⟨{(1, 1)}⟩, none⟩).2.1 (by decide)⟩,
    ⟨((persistence_retry 3 2 ⟨⟨{(1, 1)}⟩, none⟩).2.2 (by decide)).1,
      ((persistence_retry 3 2 ⟨⟨{(1, 1)}⟩, none⟩).2.2 (by decide)).2
        ⟨{(1, 2)}⟩ 0 1 (by decide)⟩⟩

/-- C7: the Debounce/Flush Scheduler's write bound.  First, under a
continuous stream of applied non-empty updates (an update every time unit),
any two distinct write units are at least the maximum-wait interval `M`
apart — writes occur at a rate of at most one per `M`.  Second, whenever a
mutation is followed by a sufficiently long quiet period, some write is
triggered within `M` units of that last mutation — no mutation is left
unpersisted indefinitely. -/
theorem debounce_flush_bound (N M : Nat) (hN : 1 ≤ N) (hNM : N < M) :
    (∀ T p q : Nat,
      (schedRun N M ⟨none, none⟩ (List.replicate T true)).get? p = some true →
      (schedRun N M ⟨none, none⟩ (List.replicate T true)).get? q = some true →
      p < q → p + M ≤ q) ∧
    (∀ (pre : List Bool) (Q : Nat), M ≤ Q →
      ∃ p, pre.length ≤ p ∧ p ≤ pre.length + M ∧
        (schedRun N M ⟨none, none⟩
          (pre ++ true :: List.replicate Q false)).get? p = some true) := by
  have hM : 1 ≤ M := by omega
  have hpat : ∀ T p : Nat,
      ((schedRun N M ⟨none, none⟩ (List.replicate T true)).get? p = some true ↔
        p < T ∧ ∃ j, p + 1 = M + j * M) := by
    intro T p
    rw [schedRun_clean_cont]
    exact cont_writes N M hN hM T none M hM p
  constructor
  · intro T p q hp hq hpq
    obtain ⟨-, jp, hjp⟩ := (hpat T p).mp hp
    obtain ⟨-, jq, hjq⟩ := (hpat T q).mp hq
    have h1 : p + 1 = (jp + 1) * M := by
      rw [Nat.succ_mul]
      have key : ∀ t : Nat, p + 1 = M + t → p + 1 = t + M := fun t ht => by omega
      exact key (jp * M) hjp
    have h2 : q + 1 = (jq + 1) * M := by
      rw [Nat.succ_mul]
      have key : ∀ t : Nat, q + 1 = M + t → q + 1 = t + M := fun t ht => by omega
      exact key (jq * M) hjq
    have hlt : (jp + 1) * M < (jq + 1) * M := by
      rw [← h1, ← h2]
      omega
    have hjlt : jp + 1 < jq + 1 := Nat.lt_of_mul_lt_mul_right hlt
    have hmul : (jp + 2) * M ≤ (jq + 1) * M :=
      Nat.mul_le_mul_right M (by omega)
    have e1 : (jp + 2) * M = (jp + 1) * M + M := by ring
    have key2 : ∀ A B : Nat, p + 1 = A → q + 1 = B → A + M ≤ B → p + M ≤ q :=
      fun A B hA hB hAB => by omega
    exact key2 ((jp + 1) * M) ((jq + 1) * M) h1 h2 (by rw [← e1]; exact hmul)
  · intro pre Q hQ
    have hinv : SchedInv N M (schedEnd N M ⟨none, none⟩ pre) :=
      schedEnd_inv N M hN hM ⟨none, none⟩ (Or.inl rfl) pre
    obtain ⟨r, hr, hget⟩ :=
      tail_write N M hN hNM (schedEnd N M ⟨none, none⟩ pre) hinv Q hQ
    refine ⟨pre.length + r, by omega, by omega, ?_⟩
    rw [schedRun_append]
    have hlen : (schedRun N M ⟨none, none⟩ pre).length = pre.length :=
      schedRun_length N M ⟨none, none⟩ pre
    rw [← hlen, get?_append_offset]
    exact hget

/-- Witness for C7: with idle timer 1 and maximum-wait 2, a continuous
six-unit stream writes at units 1 and 3 (two units apart), and after the
mutation at unit 1 of the trace `[true, true, false, false]` a write occurs
between units 1 and 3. -/
theorem debounce_flush_bound_witness :
    ((1 : Nat) ≤ 1 ∧ 1 < 2 ∧
      (schedRun 1 2 ⟨none, none⟩ (List.replicate 6 true)).get? 1 = some true ∧
      (schedRun 1 2 ⟨none, none⟩ (List.replicate 6 true)).get? 3 = some true ∧
      1 + 2 ≤ 3) ∧
    ((2 : Nat) ≤ 2 ∧
      ∃ p, [true].length ≤ p ∧ p ≤ [true].length + 2 ∧
        (schedRun 1 2 ⟨none, none⟩
          ([true] ++ true :: List.replicate 2 false)).get? p = some true) :=
  ⟨⟨by decide, by decide, by decide, by decide,
      (debounce_flush_bound 1 2 (by decide) (by decide)).1 6 1 3
        (by decide) (by decide) (by decide)⟩,
    ⟨by decide,
      (debounce_flush_bound 1 2 (by decide) (by decide)).2 [true] 2 (by decide)⟩⟩

end Sync

namespace Ed

/-- C8: deletion never crosses a grid-cell boundary.  For any external
operations, any editor whose selection is collapsed inside a grid cell, and
any unit: an anchor at the cell's end point makes `deleteForward` return the
editor unchanged without invoking the wrapped `deleteForward` (the result is
the input state for every possible wrapped function), and an anchor at the
cell's start point does the same for `deleteBackward`. -/
theorem grid_cell_delete_guard (env : ModelEnv) (ed : EditorState)
    (sel : Range) (cellPath : List Nat) (unit : DeleteUnit)
    (hsel : ed.selection = some sel) (hcol : sel.isCollapsed = true)
    (hcell : env.gridCellAt ed = some cellPath) :
    (sel.anchor = env.endOf ed cellPath →
      deleteForwardE env ed unit = ed) ∧
    (sel.anchor = env.startOf ed cellPath →
      deleteBackwardE env ed unit = ed) := by
  constructor
  · intro hend
    simp [deleteForwardE, hsel, hcol, hcell, hend]
  · intro hstart
    simp [deleteBackwardE, hsel, hcol, hcell, hstart]

/-- Witness for C8: in a concrete editor collapsed at a grid cell's boundary
point, both deletions leave the state untouched even though the wrapped
deletions would advance the document counter. -/
theorem grid_cell_delete_guard_witness :
    ed0.selection = some ⟨⟨[0, 0], 0⟩, ⟨[0, 0], 0⟩⟩ ∧
    Range.isCollapsed ⟨⟨[0, 0], 0⟩, ⟨[0, 0], 0⟩⟩ = true ∧
    env0.gridCellAt ed0 = some [0] ∧
    deleteForwardE env0 ed0 DeleteUnit.character = ed0 ∧
    deleteBackwardE env0 ed0 DeleteUnit.character = ed0 :=
  ⟨rfl, by decide, rfl,
    (grid_cell_delete_guard env0 ed0 ⟨⟨[0, 0], 0⟩, ⟨[0, 0], 0⟩⟩ [0]
      DeleteUnit.character rfl (by decide) rfl).1 rfl,
    (grid_cell_delete_guard env0 ed0 ⟨⟨[0, 0], 0⟩, ⟨[0, 0], 0⟩⟩ [0]
      DeleteUnit.character rfl (by decide) rfl).2 rfl⟩

/-- C9: `e.once` is extensionally equal to `e.on` — both perform exactly the
same `EventEmitter.on` registration — so a handler registered via `once`
is among the handlers invoked by a subsequent emit of that type, and the
emit leaves the registration intact, so it keeps firing on every later
emit. -/
theorem once_is_on (em : Emitter) (type : String) (handler : Nat)
    (prepend : Bool) :
    e_once em type handler prepend = e_on em type handler prepend ∧
    handler ∈ (emitterEmit (e_once em type handler prepend) type).1 ∧
    (emitterEmit (e_once em type handler prepend) type).2 =
      e_once em type handler prepend := by
  refine ⟨rfl, ?_, rfl⟩
  cases prepend <;> simp [e_once, emitterOn, emitterEmit]

/-- C10: with an existing selection, `focus(false)` selects the editor start,
exactly like `focus(true)`; only with no selection does the argument pick the
target — editor start when truthy, editor end otherwise (including the
missing argument). -/
theorem focus_false_selects_start (env : ModelEnv) (ed : EditorState) :
    ((∃ sel, ed.selection = some sel) →
      focusE env ed (some false) = focusE env ed (some true) ∧
      focusE env ed (some false) =
        selectE ed (env.startOf ed (env.findPath ed))) ∧
    (ed.selection = none →
      focusE env ed (some true) =
        selectE ed (env.startOf ed (env.findPath ed)) ∧
      focusE env ed (some false) =
        selectE ed (env.endOf ed (env.findPath ed)) ∧
      focusE env ed none =
        selectE ed (env.endOf ed (env.findPath ed))) := by
  constructor
  · rintro ⟨sel, hsel⟩
    constructor <;> simp [focusE, hsel]
  · intro hnone
    refine ⟨?_, ?_, ?_⟩ <;> simp [focusE, hnone]

/-- Witness for C10: on a concrete editor with a selection, `focus(false)`
and `focus(true)` agree and select the editor start; on one without a
selection, `focus(true)` selects the start and `focus(false)` and `focus()`
select the end. -/
theorem focus_false_selects_start_witness :
    ((∃ sel, ed0.selection = some sel) ∧
      focusE env0 ed0 (some false) = focusE env0 ed0 (some true) ∧
      focusE env0 ed0 (some false) =
        selectE ed0 (env0.startOf ed0 (env0.findPath ed0))) ∧
    (ed1.selection = none ∧
      focusE env0 ed1 (some true) =
        selectE ed1 (env0.startOf ed1 (env0.findPath ed1)) ∧
      focusE env0 ed1 (some false) =
        selectE ed1 (env0.endOf ed1 (env0.findPath ed1)) ∧
      focusE env0 ed1 none =
        selectE ed1 (env0.endOf ed1 (env0.findPath ed1))) :=
  ⟨⟨⟨⟨⟨[0, 0], 0⟩, ⟨[0, 0], 0⟩⟩, rfl⟩,
      (focus_false_selects_start env0 ed0).1 ⟨⟨⟨[0, 0], 0⟩, ⟨[0, 0], 0⟩⟩, rfl⟩⟩,
    ⟨rfl, (focus_false_selects_start env0 ed1).2 rfl⟩⟩

end Ed
